import Mathlib

/-!
# TUIC protocol — shallow embedding and verification

A shallow embedding of the TUIC tunnel-protocol command codec
(`src/protocol/src/command.rs`) and of the server socket initialisation
(`src/server/src/server.rs`), together with proofs of the round-trip,
error-handling and framing properties of the wire format.

Byte streams are modelled as `List Nat` (each element one byte); a reader
is a state-passing function returning the parse result together with the
unconsumed tail. Fixed-width machine integers are `Nat` with explicit
bounds where the Rust types impose them. The unsafe raw-pointer reads in
the `Packet` branch of `Command::read_from` are modelled by an explicit
host-`Endianness` parameter, so that claims about byte order can quantify
over the host.
-/

namespace Tuic

/-- Modelled from the spec: the fixed single-byte protocol version constant
`TUIC_PROTOCOL_VERSION` (defined in the protocol crate outside `src/`; the
spec fixes only that it is one byte, so the concrete value is arbitrary
and every theorem below is stated relative to this constant). -/
def TUIC_PROTOCOL_VERSION : Nat := 0x05

/-- Modelled from the spec: the error taxonomy of the protocol crate
(§7 of the spec). `ioError` stands for `Error::Io(_)`: an underlying
transport read failure, in this model always a short read. -/
inductive Error : Type where
  | ioError : Error
  | unsupportedVersion (v : Nat) : Error
  | unsupportedCommand (t : Nat) : Error
  | invalidAddressType (t : Nat) : Error
  | invalidResponse (b : Nat) : Error
  deriving DecidableEq, Repr

/-- A byte-stream reader: consumes a prefix of the stream and returns either
a value or an `Error`, together with the remaining bytes. This models a Rust
`AsyncRead` source positioned at the stream head. -/
def Parse (α : Type) : Type := List Nat → Except Error α × List Nat

instance : Monad Parse where
  pure a := fun s => (Except.ok a, s)
  bind m f := fun s =>
    match m s with
    | (Except.ok a, s1) => f a s1
    | (Except.error e, s1) => (Except.error e, s1)

/-- Fail with a protocol error, consuming nothing. -/
def Parse.fail {α : Type} (e : Error) : Parse α := fun s => (Except.error e, s)

/-- Rust `read_exact` on an n-byte buffer: succeeds with the first `n` bytes iff
the stream holds at least `n`, otherwise fails with an I/O error
(`ErrorKind::UnexpectedEof`). -/
def readExact (n : Nat) : Parse (List Nat) := fun s =>
  if n ≤ s.length then (Except.ok (s.take n), s.drop n) else (Except.error Error.ioError, s)

/-- Rust `read_u8`: one byte. -/
def readU8 : Parse Nat := fun s =>
  match s with
  | [] => (Except.error Error.ioError, [])
  | b :: rest => (Except.ok b, rest)

/-- Rust `read_u16` (tokio): two bytes, big-endian. -/
def readU16be : Parse Nat := do
  let hi ← readU8
  let lo ← readU8
  pure (hi * 256 + lo)

/-- Rust `read_u32` (tokio): four bytes, big-endian. -/
def readU32be : Parse Nat := do
  let b0 ← readU8
  let b1 ← readU8
  let b2 ← readU8
  let b3 ← readU8
  pure (((b0 * 256 + b1) * 256 + b2) * 256 + b3)

/-- Rust `BufMut::put_u16`: the two big-endian bytes of a `u16`. -/
def putU16 (x : Nat) : List Nat := [x / 256 % 256, x % 256]

/-- Rust `BufMut::put_u32`: the four big-endian bytes of a `u32`. -/
def putU32 (x : Nat) : List Nat :=
  [x / 16777216 % 256, x / 65536 % 256, x / 256 % 256, x % 256]

/-- Host byte order, the hidden parameter of the unsafe raw-pointer integer
reads in `Command::read_from`. -/
inductive Endianness : Type where
  | big : Endianness
  | little : Endianness
  deriving DecidableEq, Repr

/-- Rust `u16::swap_bytes`. -/
def bswap16 (x : Nat) : Nat := x % 256 * 256 + x / 256 % 256

/-- Rust `u32::swap_bytes`. -/
def bswap32 (x : Nat) : Nat :=
  x % 256 * 16777216 + x / 256 % 256 * 65536 + x / 65536 % 256 * 256 + x / 16777216 % 256

/-- The unsafe unaligned load `*(buf.as_ptr() as *const u32)`: the four bytes
at the pointer interpreted in host byte order. -/
def rawLoadU32 (e : Endianness) (b0 b1 b2 b3 : Nat) : Nat :=
  match e with
  | Endianness.big => ((b0 * 256 + b1) * 256 + b2) * 256 + b3
  | Endianness.little => ((b3 * 256 + b2) * 256 + b1) * 256 + b0

/-- The unsafe unaligned load `*(buf.as_ptr().add(4) as *const u16)`. -/
def rawLoadU16 (e : Endianness) (b4 b5 : Nat) : Nat :=
  match e with
  | Endianness.big => b4 * 256 + b5
  | Endianness.little => b5 * 256 + b4

/-- Rust `u32::from_be`: identity on a big-endian host, byte swap on a
little-endian host. -/
def u32FromBe (e : Endianness) (x : Nat) : Nat :=
  match e with
  | Endianness.big => x
  | Endianness.little => bswap32 x

/-- Rust `u16::from_be`. -/
def u16FromBe (e : Endianness) (x : Nat) : Nat :=
  match e with
  | Endianness.big => x
  | Endianness.little => bswap16 x

/-- Modelled from the spec: the protocol crate's `Address` (outside `src/`),
a tagged variant over domain, IPv4 and IPv6 destinations (§3 of the spec).
Hosts and IPs are byte lists; ports are `u16`. -/
inductive Address : Type where
  | domainAddress (host : List Nat) (port : Nat) : Address
  | socketAddressV4 (ip : List Nat) (port : Nat) : Address
  | socketAddressV6 (ip : List Nat) (port : Nat) : Address
  deriving DecidableEq, Repr

/-- Address tag byte: `0xff` domain. -/
def ATYPE_DOMAIN : Nat := 0xff
/-- Address tag byte: `0x01` IPv4. -/
def ATYPE_V4 : Nat := 0x01
/-- Address tag byte: `0x04` IPv6. -/
def ATYPE_V6 : Nat := 0x04

/-- The constraints the Rust types impose on an `Address` value: bytes fit
in `u8`, the port in `u16`, IPs have their fixed width, and a domain host is
a nonempty string of at most 255 bytes (its length is written as one byte). -/
def Address.wf : Address → Prop
  | Address.domainAddress host port =>
      1 ≤ host.length ∧ host.length ≤ 255 ∧ (∀ b ∈ host, b < 256) ∧ port < 65536
  | Address.socketAddressV4 ip port =>
      ip.length = 4 ∧ (∀ b ∈ ip, b < 256) ∧ port < 65536
  | Address.socketAddressV6 ip port =>
      ip.length = 16 ∧ (∀ b ∈ ip, b < 256) ∧ port < 65536

instance (a : Address) : Decidable a.wf := by
  cases a <;> simp only [Address.wf] <;> infer_instance

/-- Modelled from the spec: `Address::read_from` (§4.1, §6). One tag byte;
then for v4 four IP bytes and a big-endian port, for v6 sixteen IP bytes and
a port, for domain one length byte, that many host bytes and a port. An
unknown tag fails with `InvalidAddressType(tag)`; a short read is an I/O
error. -/
def Address.read_from : Parse Address := do
  let tag ← readU8
  if tag = ATYPE_DOMAIN then do
    let len ← readU8
    let host ← readExact len
    let port ← readU16be
    pure (Address.domainAddress host port)
  else if tag = ATYPE_V4 then do
    let ip ← readExact 4
    let port ← readU16be
    pure (Address.socketAddressV4 ip port)
  else if tag = ATYPE_V6 then do
    let ip ← readExact 16
    let port ← readU16be
    pure (Address.socketAddressV6 ip port)
  else Parse.fail (Error.invalidAddressType tag)

/-- Modelled from the spec: `Address::write_to_buf` (§6): tag byte, then the
body, appended to the buffer; the domain length is one byte before the host
bytes and ports are written big-endian. -/
def Address.write_to_buf : Address → List Nat → List Nat
  | Address.domainAddress host port, buf =>
      buf ++ [ATYPE_DOMAIN, host.length] ++ host ++ putU16 port
  | Address.socketAddressV4 ip port, buf =>
      buf ++ [ATYPE_V4] ++ ip ++ putU16 port
  | Address.socketAddressV6 ip port, buf =>
      buf ++ [ATYPE_V6] ++ ip ++ putU16 port

/-- Modelled from the spec: `Address::serialized_len` (§4.1): exactly the
number of bytes `write_to_buf` appends. -/
def Address.serialized_len : Address → Nat
  | Address.domainAddress host _ => 1 + 1 + host.length + 2
  | Address.socketAddressV4 _ _ => 1 + 4 + 2
  | Address.socketAddressV6 _ _ => 1 + 16 + 2

/-- The `Command` enum of `src/protocol/src/command.rs`: the six protocol
commands. The `digest` of `Authenticate` is `[u8; 32]`, here a byte list
whose well-formed length is 32. -/
inductive Command : Type where
  | response (isSucceeded : Bool) : Command
  | authenticate (digest : List Nat) : Command
  | connect (addr : Address) : Command
  | packet (assocId : Nat) (len : Nat) (addr : Address) : Command
  | dissociate (assocId : Nat) : Command
  | heartbeat : Command
  deriving DecidableEq, Repr

namespace Command

/-- Type byte `Command::TYPE_RESPONSE`. -/
def TYPE_RESPONSE : Nat := 0xff
/-- Type byte `Command::TYPE_AUTHENTICATE`. -/
def TYPE_AUTHENTICATE : Nat := 0x00
/-- Type byte `Command::TYPE_CONNECT`. -/
def TYPE_CONNECT : Nat := 0x01
/-- Type byte `Command::TYPE_PACKET`. -/
def TYPE_PACKET : Nat := 0x02
/-- Type byte `Command::TYPE_DISSOCIATE`. -/
def TYPE_DISSOCIATE : Nat := 0x03
/-- Type byte `Command::TYPE_HEARTBEAT`. -/
def TYPE_HEARTBEAT : Nat := 0x04

/-- Response payload byte `Command::RESPONSE_SUCCEEDED`. -/
def RESPONSE_SUCCEEDED : Nat := 0x00
/-- Response payload byte `Command::RESPONSE_FAILED`. -/
def RESPONSE_FAILED : Nat := 0xff

/-- The constraints the Rust types impose on a `Command` value: the digest
is exactly 32 bytes each below 256, `assoc_id : u32`, `len : u16`, and
addresses are well formed. -/
def wf : Command → Prop
  | response _ => True
  | authenticate digest => digest.length = 32 ∧ ∀ b ∈ digest, b < 256
  | connect addr => addr.wf
  | packet assocId len addr => assocId < 4294967296 ∧ len < 65536 ∧ addr.wf
  | dissociate assocId => assocId < 4294967296
  | heartbeat => True

instance (c : Command) : Decidable c.wf := by
  cases c <;> simp only [wf] <;> infer_instance

/-- Rust `Command::read_from` (`command.rs` lines 75–121): read a two-byte
header, reject a wrong version, dispatch on the type byte. The `Packet`
branch reproduces the source's unsafe raw-pointer loads followed by
`u32::from_be` / `u16::from_be`, parametrised by the host byte order `e`. -/
def read_from (e : Endianness) : Parse Command := do
  let buf ← readExact 2
  let ver := buf.getD 0 0
  let cmd := buf.getD 1 0
  if ver ≠ TUIC_PROTOCOL_VERSION then
    Parse.fail (Error.unsupportedVersion ver)
  else if cmd = TYPE_RESPONSE then do
    let resp ← readU8
    if resp = RESPONSE_SUCCEEDED then pure (response true)
    else if resp = RESPONSE_FAILED then pure (response false)
    else Parse.fail (Error.invalidResponse resp)
  else if cmd = TYPE_AUTHENTICATE then do
    let digest ← readExact 32
    pure (authenticate digest)
  else if cmd = TYPE_CONNECT then do
    let addr ← Address.read_from
    pure (connect addr)
  else if cmd = TYPE_PACKET then do
    let pbuf ← readExact 6
    let assocId := u32FromBe e
      (rawLoadU32 e (pbuf.getD 0 0) (pbuf.getD 1 0) (pbuf.getD 2 0) (pbuf.getD 3 0))
    let len := u16FromBe e (rawLoadU16 e (pbuf.getD 4 0) (pbuf.getD 5 0))
    let addr ← Address.read_from
    pure (packet assocId len addr)
  else if cmd = TYPE_DISSOCIATE then do
    let assocId ← readU32be
    pure (dissociate assocId)
  else if cmd = TYPE_HEARTBEAT then
    pure heartbeat
  else
    Parse.fail (Error.unsupportedCommand cmd)

/-- Rust `Command::write_to_buf` (`command.rs` lines 132–170): append the version
byte, the type byte of the variant, then the body. -/
def write_to_buf (c : Command) (buf : List Nat) : List Nat :=
  let buf := buf ++ [TUIC_PROTOCOL_VERSION]
  match c with
  | response isSucceeded =>
      let buf := buf ++ [TYPE_RESPONSE]
      if isSucceeded then buf ++ [RESPONSE_SUCCEEDED] else buf ++ [RESPONSE_FAILED]
  | authenticate digest => buf ++ [TYPE_AUTHENTICATE] ++ digest
  | connect addr => addr.write_to_buf (buf ++ [TYPE_CONNECT])
  | packet assocId len addr =>
      addr.write_to_buf (buf ++ [TYPE_PACKET] ++ putU32 assocId ++ putU16 len)
  | dissociate assocId => buf ++ [TYPE_DISSOCIATE] ++ putU32 assocId
  | heartbeat => buf ++ [TYPE_HEARTBEAT]

/-- Rust `Command::serialized_len` (`command.rs` lines 172–181). -/
def serialized_len (c : Command) : Nat :=
  2 + match c with
  | response _ => 1
  | authenticate _ => 32
  | connect addr => addr.serialized_len
  | packet _ _ addr => 6 + addr.serialized_len
  | dissociate _ => 4
  | heartbeat => 0

/-- Rust `Command::write_to` (`command.rs` lines 123–130): fill a fresh buffer of
capacity `serialized_len` with `write_to_buf`, then hand it to the sink in
one `write_all` call. The result is the list of write calls issued, each a
byte chunk. -/
def write_to (c : Command) : List (List Nat) :=
  let buf : List Nat := []
  let buf := c.write_to_buf buf
  [buf]

end Command

/-- The type byte `Command::write_to_buf` emits for each variant. -/
def Command.typeByte : Command → Nat
  | Command.response _ => Command.TYPE_RESPONSE
  | Command.authenticate _ => Command.TYPE_AUTHENTICATE
  | Command.connect _ => Command.TYPE_CONNECT
  | Command.packet _ _ _ => Command.TYPE_PACKET
  | Command.dissociate _ => Command.TYPE_DISSOCIATE
  | Command.heartbeat => Command.TYPE_HEARTBEAT

/-- An IP address as in Rust `std::net`; an IPv6 address is eight 16-bit
segments. -/
inductive IpAddr : Type where
  | v4 (a b c d : Nat) : IpAddr
  | v6 (s0 s1 s2 s3 s4 s5 s6 s7 : Nat) : IpAddr
  deriving DecidableEq, Repr

/-- Rust `Ipv4Addr::UNSPECIFIED` (`0.0.0.0`). -/
def Ipv4Addr.UNSPECIFIED : IpAddr := IpAddr.v4 0 0 0 0

/-- Rust `Ipv6Addr::UNSPECIFIED` (`::`). -/
def Ipv6Addr.UNSPECIFIED : IpAddr := IpAddr.v6 0 0 0 0 0 0 0 0

/-- A socket address: an IP address and a port. -/
structure SocketAddr : Type where
  ip : IpAddr
  port : Nat
  deriving DecidableEq, Repr

/-- The `socket2::Domain` of the created socket. -/
inductive Domain : Type where
  | ipv4 : Domain
  | ipv6 : Domain
  deriving DecidableEq, Repr

/-- One observable socket-configuration step performed by `Server::init`. -/
inductive SockOp : Type where
  | create (d : Domain) : SockOp
  | setOnlyV6 (b : Bool) : SockOp
  | bindAddr (a : SocketAddr) : SockOp
  deriving DecidableEq, Repr

/-- Rust `Server::init` (`src/server/src/server.rs` lines 20–58), restricted
to its socket configuration, which is the only part the spec constrains:
pick the bind address and socket domain from `enable_ipv6`, create the UDP
socket with that domain, clear the `only_v6` option when IPv6 is enabled,
then bind the chosen address. The result is the sequence of socket
operations performed, in order. -/
def Server.init_socket_ops (enable_ipv6 : Bool) (port : Nat) : List SockOp :=
  let ad :=
    if enable_ipv6 then (SocketAddr.mk Ipv6Addr.UNSPECIFIED port, Domain.ipv6)
    else (SocketAddr.mk Ipv4Addr.UNSPECIFIED port, Domain.ipv4)
  [SockOp.create ad.2]
    ++ (if enable_ipv6 then [SockOp.setOnlyV6 false] else [])
    ++ [SockOp.bindAddr ad.1]

end Tuic

namespace Tuic

/-! ## Running the reader -/

/-- Running a bound reader: run the first reader, and on success feed the
value and the remaining stream to the continuation. -/
theorem Parse.bind_apply {α β : Type} (m : Parse α) (f : α → Parse β) (s : List Nat) :
    (m >>= f) s =
      match m s with
      | (Except.ok a, s1) => f a s1
      | (Except.error err, s1) => (Except.error err, s1) := rfl

/-- Running `pure` consumes nothing. -/
theorem Parse.pure_apply {α : Type} (a : α) (s : List Nat) :
    (pure a : Parse α) s = (Except.ok a, s) := rfl

/-- Stepping a bound reader through a successful first read. -/
theorem Parse.bind_apply_ok {α β : Type} {m : Parse α} {f : α → Parse β} {s s1 : List Nat}
    {a : α} (h : m s = (Except.ok a, s1)) : (m >>= f) s = f a s1 := by
  rw [Parse.bind_apply, h]

/-- Stepping a bound reader through a failing first read. -/
theorem Parse.bind_apply_err {α β : Type} {m : Parse α} {f : α → Parse β} {s s1 : List Nat}
    {err : Error} (h : m s = (Except.error err, s1)) :
    (m >>= f) s = (Except.error err, s1) := by
  rw [Parse.bind_apply, h]

/-- Reading an exact number of bytes off a stream that starts with a list of
exactly that length yields that list and the tail. -/
theorem readExact_append {n : Nat} {l : List Nat} (rest : List Nat) (h : l.length = n) :
    readExact n (l ++ rest) = (Except.ok l, rest) := by
  subst h
  simp [readExact, List.take_left, List.drop_left]

/-- Reading one byte off a nonempty stream. -/
theorem readU8_cons (b : Nat) (rest : List Nat) :
    readU8 (b :: rest) = (Except.ok b, rest) := rfl

/-- Reading a big-endian `u16` assembles the first two bytes. -/
theorem readU16be_cons (hi lo : Nat) (rest : List Nat) :
    readU16be (hi :: lo :: rest) = (Except.ok (hi * 256 + lo), rest) := rfl

/-- Reading back the two bytes `put_u16` wrote recovers the `u16`. -/
theorem readU16be_putU16 {x : Nat} (rest : List Nat) (h : x < 65536) :
    readU16be (putU16 x ++ rest) = (Except.ok x, rest) := by
  have hx : x / 256 % 256 * 256 + x % 256 = x := by omega
  calc readU16be (putU16 x ++ rest)
      = (Except.ok (x / 256 % 256 * 256 + x % 256), rest) := rfl
    _ = (Except.ok x, rest) := by rw [hx]

/-- Reading back the four bytes `put_u32` wrote recovers the `u32`. -/
theorem readU32be_putU32 {x : Nat} (rest : List Nat) (h : x < 4294967296) :
    readU32be (putU32 x ++ rest) = (Except.ok x, rest) := by
  have hx : ((x / 16777216 % 256 * 256 + x / 65536 % 256) * 256 + x / 256 % 256) * 256 + x % 256
      = x := by omega
  calc readU32be (putU32 x ++ rest)
      = (Except.ok (((x / 16777216 % 256 * 256 + x / 65536 % 256) * 256 + x / 256 % 256) * 256
          + x % 256), rest) := rfl
    _ = (Except.ok x, rest) := by rw [hx]

/-! ## The raw-pointer loads assemble big-endian integers on every host -/

/-- Whatever the host byte order, the unsafe `u32` load followed by
`u32::from_be` assembles the four bytes big-endian. -/
theorem u32FromBe_rawLoadU32 (e : Endianness) {b0 b1 b2 b3 : Nat}
    (h0 : b0 < 256) (h1 : b1 < 256) (h2 : b2 < 256) (h3 : b3 < 256) :
    u32FromBe e (rawLoadU32 e b0 b1 b2 b3) = ((b0 * 256 + b1) * 256 + b2) * 256 + b3 := by
  cases e
  · rfl
  · simp only [u32FromBe, rawLoadU32, bswap32]
    have e1 : (((b3 * 256 + b2) * 256 + b1) * 256 + b0) % 256 = b0 := by omega
    have e2 : (((b3 * 256 + b2) * 256 + b1) * 256 + b0) / 256 % 256 = b1 := by omega
    have e3 : (((b3 * 256 + b2) * 256 + b1) * 256 + b0) / 65536 % 256 = b2 := by omega
    have e4 : (((b3 * 256 + b2) * 256 + b1) * 256 + b0) / 16777216 % 256 = b3 := by omega
    rw [e1, e2, e3, e4]
    ring

/-- Whatever the host byte order, the unsafe `u16` load followed by
`u16::from_be` assembles the two bytes big-endian. -/
theorem u16FromBe_rawLoadU16 (e : Endianness) {b4 b5 : Nat}
    (h4 : b4 < 256) (h5 : b5 < 256) :
    u16FromBe e (rawLoadU16 e b4 b5) = b4 * 256 + b5 := by
  cases e
  · rfl
  · simp only [u16FromBe, rawLoadU16, bswap16]
    omega

/-! ## Writer structure -/

/-- Writing an address into a buffer appends its standalone encoding. -/
theorem Address.addr_write_to_buf_append (a : Address) (buf : List Nat) :
    a.write_to_buf buf = buf ++ a.write_to_buf [] := by
  cases a <;> simp [Address.write_to_buf]

/-- Writing a command into a buffer appends its standalone encoding. -/
theorem Command.cmd_write_to_buf_append (c : Command) (buf : List Nat) :
    c.write_to_buf buf = buf ++ c.write_to_buf [] := by
  cases c with
  | response isSucceeded =>
    cases isSucceeded <;> simp [Command.write_to_buf]
  | connect addr =>
    cases addr <;> simp [Command.write_to_buf, Address.write_to_buf]
  | packet assocId len addr =>
    cases addr <;> simp [Command.write_to_buf, Address.write_to_buf]
  | _ => simp [Command.write_to_buf]

/-- The standalone address encoding is as long as `serialized_len` says,
for well-formed addresses. -/
theorem Address.addr_length_write (a : Address) (h : a.wf) :
    (a.write_to_buf []).length = a.serialized_len := by
  cases a with
  | domainAddress host port =>
    simp [Address.write_to_buf, Address.serialized_len, putU16]
    omega
  | socketAddressV4 ip port =>
    obtain ⟨hl, -, -⟩ := h
    simp [Address.write_to_buf, Address.serialized_len, putU16, hl]
  | socketAddressV6 ip port =>
    obtain ⟨hl, -, -⟩ := h
    simp [Address.write_to_buf, Address.serialized_len, putU16, hl]

/-- The standalone command encoding is as long as `serialized_len` says,
for well-formed commands. -/
theorem Command.cmd_length_write (c : Command) (h : c.wf) :
    (c.write_to_buf []).length = c.serialized_len := by
  cases c with
  | response isSucceeded =>
    cases isSucceeded <;> rfl
  | authenticate digest =>
    obtain ⟨hl, -⟩ := h
    simp [Command.write_to_buf, Command.serialized_len, hl]
  | connect addr =>
    have hlen := Address.addr_length_write addr h
    simp only [Command.write_to_buf, Command.serialized_len]
    rw [Address.addr_write_to_buf_append]
    simp [hlen]
    omega
  | packet assocId len addr =>
    obtain ⟨-, -, ha⟩ := h
    have hlen := Address.addr_length_write addr ha
    simp only [Command.write_to_buf, Command.serialized_len]
    rw [Address.addr_write_to_buf_append]
    simp [hlen, putU32, putU16]
    omega
  | dissociate assocId =>
    simp [Command.write_to_buf, Command.serialized_len, putU32]
  | heartbeat => rfl

end Tuic

namespace Tuic

/-! ## Round-trip -/

/-- Decoding the encoding of a well-formed address, with any trailing bytes,
returns the address and leaves the trailing bytes unconsumed. -/
theorem Address.addr_read_write (a : Address) (rest : List Nat) (h : a.wf) :
    Address.read_from (a.write_to_buf [] ++ rest) = (Except.ok a, rest) := by
  cases a with
  | domainAddress host port =>
    obtain ⟨-, -, -, hp⟩ := h
    simp [Address.write_to_buf, Address.read_from, Parse.bind_apply, Parse.pure_apply,
      readU8_cons, readExact_append, readU16be_putU16, ATYPE_DOMAIN, ATYPE_V4, ATYPE_V6, hp]
  | socketAddressV4 ip port =>
    obtain ⟨hl, -, hp⟩ := h
    simp [Address.write_to_buf, Address.read_from, Parse.bind_apply, Parse.pure_apply,
      readU8_cons, readExact_append, readU16be_putU16, ATYPE_DOMAIN, ATYPE_V4, ATYPE_V6, hl, hp]
  | socketAddressV6 ip port =>
    obtain ⟨hl, -, hp⟩ := h
    simp [Address.write_to_buf, Address.read_from, Parse.bind_apply, Parse.pure_apply,
      readU8_cons, readExact_append, readU16be_putU16, ATYPE_DOMAIN, ATYPE_V4, ATYPE_V6, hl, hp]

end Tuic

namespace Tuic

/-- Reading the two header bytes. -/
theorem readExact_two (v c : Nat) (t : List Nat) :
    readExact 2 (v :: c :: t) = (Except.ok [v, c], t) :=
  @readExact_append 2 [v, c] t rfl

/-- Reading the six fixed bytes of a `Packet` body. -/
theorem readExact_six (c0 c1 c2 c3 c4 c5 : Nat) (t : List Nat) :
    readExact 6 (c0 :: c1 :: c2 :: c3 :: c4 :: c5 :: t) =
      (Except.ok [c0, c1, c2, c3, c4, c5], t) :=
  @readExact_append 6 [c0, c1, c2, c3, c4, c5] t rfl

/-- Decoding the encoding of a well-formed command, with any trailing bytes
and on any host, returns the command and leaves the trailing bytes
unconsumed. -/
theorem Command.cmd_read_write (e : Endianness) (c : Command) (rest : List Nat) (h : c.wf) :
    Command.read_from e (c.write_to_buf [] ++ rest) = (Except.ok c, rest) := by
  cases c with
  | response isSucceeded =>
    cases isSucceeded <;>
      simp [Command.write_to_buf, Command.read_from, Parse.bind_apply, Parse.pure_apply,
        readExact_two, readU8_cons, TUIC_PROTOCOL_VERSION, Command.TYPE_RESPONSE,
        Command.RESPONSE_SUCCEEDED, Command.RESPONSE_FAILED]
  | authenticate digest =>
    obtain ⟨hl, -⟩ := h
    simp [Command.write_to_buf, Command.read_from, Parse.bind_apply, Parse.pure_apply,
      readExact_two, readExact_append, TUIC_PROTOCOL_VERSION, Command.TYPE_RESPONSE,
      Command.TYPE_AUTHENTICATE, hl]
  | connect addr =>
    simp only [Command.write_to_buf]
    rw [Address.addr_write_to_buf_append]
    simp [Command.read_from, Parse.bind_apply, Parse.pure_apply, readExact_two,
      TUIC_PROTOCOL_VERSION, Command.TYPE_RESPONSE, Command.TYPE_AUTHENTICATE,
      Command.TYPE_CONNECT, Address.addr_read_write addr rest h]
  | packet assocId len addr =>
    obtain ⟨ha32, hl16, haddr⟩ := h
    have key32 : u32FromBe e (rawLoadU32 e (assocId / 16777216 % 256) (assocId / 65536 % 256)
        (assocId / 256 % 256) (assocId % 256)) = assocId := by
      rw [u32FromBe_rawLoadU32 e (by omega) (by omega) (by omega) (by omega)]
      omega
    have key16 : u16FromBe e (rawLoadU16 e (len / 256 % 256) (len % 256)) = len := by
      rw [u16FromBe_rawLoadU16 e (by omega) (by omega)]
      omega
    simp only [Command.write_to_buf]
    rw [Address.addr_write_to_buf_append]
    simp [Command.read_from, Parse.bind_apply, Parse.pure_apply, readExact_two, readExact_six,
      TUIC_PROTOCOL_VERSION, Command.TYPE_RESPONSE, Command.TYPE_AUTHENTICATE,
      Command.TYPE_CONNECT, Command.TYPE_PACKET, putU32, putU16, key32, key16,
      Address.addr_read_write addr rest haddr]
  | dissociate assocId =>
    have h32 : assocId < 4294967296 := h
    simp [Command.write_to_buf, Command.read_from, Parse.bind_apply, Parse.pure_apply,
      readExact_two, readU32be_putU32, TUIC_PROTOCOL_VERSION, Command.TYPE_RESPONSE,
      Command.TYPE_AUTHENTICATE, Command.TYPE_CONNECT, Command.TYPE_PACKET,
      Command.TYPE_DISSOCIATE, h32]
  | heartbeat =>
    simp [Command.write_to_buf, Command.read_from, Parse.bind_apply, Parse.pure_apply,
      readExact_two, TUIC_PROTOCOL_VERSION, Command.TYPE_RESPONSE, Command.TYPE_AUTHENTICATE,
      Command.TYPE_CONNECT, Command.TYPE_PACKET, Command.TYPE_DISSOCIATE,
      Command.TYPE_HEARTBEAT]

end Tuic

namespace Tuic

/-! ## Inversion: a successful parse consumes exactly the serialized length -/

/-- Inversion for `readExact`: success means the stream was long enough, the
bytes are its prefix and the tail is the corresponding drop. -/
theorem readExact_ok {n : Nat} {s l s2 : List Nat}
    (h : readExact n s = (Except.ok l, s2)) :
    n ≤ s.length ∧ l = s.take n ∧ s2 = s.drop n := by
  unfold readExact at h
  split at h
  · obtain ⟨h1, h2⟩ := Prod.mk.injEq .. ▸ h
    exact ⟨by assumption, (Except.ok.injEq .. ▸ h1).symm, h2.symm⟩
  · simp at h

/-- Inversion for `readU16be`: success consumes exactly two bytes. -/
theorem readU16be_ok {s : List Nat} {x : Nat} {s2 : List Nat}
    (h : readU16be s = (Except.ok x, s2)) :
    2 ≤ s.length ∧ s2 = s.drop 2 := by
  cases s with
  | nil => simp [readU16be, Parse.bind_apply, readU8] at h
  | cons a t =>
    cases t with
    | nil => simp [readU16be, Parse.bind_apply, readU8] at h
    | cons b t2 =>
      simp only [readU16be, Parse.bind_apply, readU8_cons, Parse.pure_apply,
        Prod.mk.injEq, Except.ok.injEq] at h
      simp [h.2.symm]

/-- Inversion for `readU32be`: success consumes exactly four bytes. -/
theorem readU32be_ok {s : List Nat} {x : Nat} {s2 : List Nat}
    (h : readU32be s = (Except.ok x, s2)) :
    4 ≤ s.length ∧ s2 = s.drop 4 := by
  cases s with
  | nil => simp [readU32be, Parse.bind_apply, readU8] at h
  | cons a t =>
    cases t with
    | nil => simp [readU32be, Parse.bind_apply, readU8] at h
    | cons b t2 =>
      cases t2 with
      | nil => simp [readU32be, Parse.bind_apply, readU8] at h
      | cons c t3 =>
        cases t3 with
        | nil => simp [readU32be, Parse.bind_apply, readU8] at h
        | cons d t4 =>
          simp only [readU32be, Parse.bind_apply, readU8_cons, Parse.pure_apply,
            Prod.mk.injEq, Except.ok.injEq] at h
          simp [h.2.symm]

/-- Inversion for the address decoder: a successful parse consumed exactly
`serialized_len` bytes of the stream and returned the rest untouched. -/
theorem Address.addr_read_ok {s : List Nat} {a : Address} {s2 : List Nat}
    (h : Address.read_from s = (Except.ok a, s2)) :
    a.serialized_len ≤ s.length ∧ s2 = s.drop a.serialized_len := by
  unfold Address.read_from at h
  cases s with
  | nil => simp [Parse.bind_apply, readU8] at h
  | cons tag t =>
    rw [Parse.bind_apply_ok (readU8_cons tag t)] at h
    by_cases hd : tag = ATYPE_DOMAIN
    · rw [if_pos hd] at h
      cases t with
      | nil => simp [Parse.bind_apply, readU8] at h
      | cons len t2 =>
        rw [Parse.bind_apply_ok (readU8_cons len t2)] at h
        rcases h1 : readExact len t2 with ⟨r1, s3⟩
        cases r1 with
        | error err => rw [Parse.bind_apply_err h1] at h; simp at h
        | ok host =>
          rw [Parse.bind_apply_ok h1] at h
          obtain ⟨hle, hhost, hs3⟩ := readExact_ok h1
          rcases h2 : readU16be s3 with ⟨r2, s4⟩
          cases r2 with
          | error err => rw [Parse.bind_apply_err h2] at h; simp at h
          | ok port =>
            rw [Parse.bind_apply_ok h2] at h
            obtain ⟨hle2, hs4⟩ := readU16be_ok h2
            simp only [Parse.pure_apply, Prod.mk.injEq, Except.ok.injEq] at h
            obtain ⟨ha, hs2⟩ := h
            subst ha
            subst hs2
            subst hs4
            subst hs3
            subst hhost
            have hlen : (t2.take len).length = len := by
              simp [List.length_take]
              omega
            constructor
            · simp only [Address.serialized_len, hlen, List.length_cons]
              have := List.length_drop len t2
              omega
            · simp only [Address.serialized_len, hlen]
              rw [show 1 + 1 + len + 2 = (len + 2) + 1 + 1 from by omega]
              simp only [List.drop_succ_cons]
              rw [List.drop_drop]
    · by_cases h4 : tag = ATYPE_V4
      · rw [if_neg hd, if_pos h4] at h
        rcases h1 : readExact 4 t with ⟨r1, s3⟩
        cases r1 with
        | error err => rw [Parse.bind_apply_err h1] at h; simp at h
        | ok ip =>
          rw [Parse.bind_apply_ok h1] at h
          obtain ⟨hle, hip, hs3⟩ := readExact_ok h1
          rcases h2 : readU16be s3 with ⟨r2, s4⟩
          cases r2 with
          | error err => rw [Parse.bind_apply_err h2] at h; simp at h
          | ok port =>
            rw [Parse.bind_apply_ok h2] at h
            obtain ⟨hle2, hs4⟩ := readU16be_ok h2
            simp only [Parse.pure_apply, Prod.mk.injEq, Except.ok.injEq] at h
            obtain ⟨ha, hs2⟩ := h
            subst ha
            subst hs2
            subst hs4
            subst hs3
            constructor
            · simp only [Address.serialized_len, List.length_cons]
              have := List.length_drop 4 t
              omega
            · simp only [Address.serialized_len]
              rw [List.drop_drop]
              rw [show (1 + 4 + 2 : Nat) = (2 + 4) + 1 from by omega]
              simp only [List.drop_succ_cons]
      · by_cases h6 : tag = ATYPE_V6
        · rw [if_neg hd, if_neg h4, if_pos h6] at h
          rcases h1 : readExact 16 t with ⟨r1, s3⟩
          cases r1 with
          | error err => rw [Parse.bind_apply_err h1] at h; simp at h
          | ok ip =>
            rw [Parse.bind_apply_ok h1] at h
            obtain ⟨hle, hip, hs3⟩ := readExact_ok h1
            rcases h2 : readU16be s3 with ⟨r2, s4⟩
            cases r2 with
            | error err => rw [Parse.bind_apply_err h2] at h; simp at h
            | ok port =>
              rw [Parse.bind_apply_ok h2] at h
              obtain ⟨hle2, hs4⟩ := readU16be_ok h2
              simp only [Parse.pure_apply, Prod.mk.injEq, Except.ok.injEq] at h
              obtain ⟨ha, hs2⟩ := h
              subst ha
              subst hs2
              subst hs4
              subst hs3
              constructor
              · simp only [Address.serialized_len, List.length_cons]
                have := List.length_drop 16 t
                omega
              · simp only [Address.serialized_len]
                rw [List.drop_drop]
                rw [show (1 + 16 + 2 : Nat) = (2 + 16) + 1 from by omega]
                simp only [List.drop_succ_cons]
        · rw [if_neg hd, if_neg h4, if_neg h6] at h
          simp [Parse.fail] at h

end Tuic

namespace Tuic

/-- Inversion for the command decoder: a successful parse consumed exactly
`serialized_len` bytes of the stream and returned the rest untouched. -/
theorem Command.cmd_read_ok (e : Endianness) {s : List Nat} {c : Command} {s2 : List Nat}
    (h : Command.read_from e s = (Except.ok c, s2)) :
    c.serialized_len ≤ s.length ∧ s2 = s.drop c.serialized_len := by
  unfold Command.read_from at h
  cases s with
  | nil => simp [Parse.bind_apply, readExact] at h
  | cons v t0 =>
    cases t0 with
    | nil => simp [Parse.bind_apply, readExact] at h
    | cons cb t =>
      rw [Parse.bind_apply_ok (readExact_two v cb t)] at h
      simp only [show ([v, cb].getD 0 0) = v from rfl, show ([v, cb].getD 1 0) = cb from rfl] at h
      by_cases hv : v = TUIC_PROTOCOL_VERSION
      · rw [if_neg (not_not_intro hv)] at h
        by_cases hR : cb = Command.TYPE_RESPONSE
        · rw [if_pos hR] at h
          cases t with
          | nil => simp [Parse.bind_apply, readU8] at h
          | cons b t2 =>
            rw [Parse.bind_apply_ok (readU8_cons b t2)] at h
            by_cases hb0 : b = Command.RESPONSE_SUCCEEDED
            · rw [if_pos hb0] at h
              simp only [Parse.pure_apply, Prod.mk.injEq, Except.ok.injEq] at h
              obtain ⟨hc, hs⟩ := h
              subst hc
              subst hs
              refine ⟨by simp [Command.serialized_len], rfl⟩
            · rw [if_neg hb0] at h
              by_cases hbf : b = Command.RESPONSE_FAILED
              · rw [if_pos hbf] at h
                simp only [Parse.pure_apply, Prod.mk.injEq, Except.ok.injEq] at h
                obtain ⟨hc, hs⟩ := h
                subst hc
                subst hs
                refine ⟨by simp [Command.serialized_len], rfl⟩
              · rw [if_neg hbf] at h
                simp [Parse.fail] at h
        · rw [if_neg hR] at h
          by_cases hA : cb = Command.TYPE_AUTHENTICATE
          · rw [if_pos hA] at h
            rcases h1 : readExact 32 t with ⟨r1, s3⟩
            cases r1 with
            | error err => rw [Parse.bind_apply_err h1] at h; simp at h
            | ok digest =>
              rw [Parse.bind_apply_ok h1] at h
              obtain ⟨hle, -, hs3⟩ := readExact_ok h1
              simp only [Parse.pure_apply, Prod.mk.injEq, Except.ok.injEq] at h
              obtain ⟨hc, hs⟩ := h
              subst hc
              subst hs
              subst hs3
              constructor
              · simp only [Command.serialized_len, List.length_cons]
                omega
              · simp only [Command.serialized_len]
                rw [show (2 + 32 : Nat) = 32 + 1 + 1 from by omega]
                simp only [List.drop_succ_cons]
          · rw [if_neg hA] at h
            by_cases hC : cb = Command.TYPE_CONNECT
            · rw [if_pos hC] at h
              rcases ha : Address.read_from t with ⟨r1, s3⟩
              cases r1 with
              | error err => rw [Parse.bind_apply_err ha] at h; simp at h
              | ok addr =>
                rw [Parse.bind_apply_ok ha] at h
                obtain ⟨hle, hs3⟩ := Address.addr_read_ok ha
                simp only [Parse.pure_apply, Prod.mk.injEq, Except.ok.injEq] at h
                obtain ⟨hc, hs⟩ := h
                subst hc
                subst hs
                subst hs3
                constructor
                · simp only [Command.serialized_len, List.length_cons]
                  omega
                · simp only [Command.serialized_len]
                  rw [show 2 + addr.serialized_len = addr.serialized_len + 1 + 1 from by omega]
                  simp only [List.drop_succ_cons]
            · rw [if_neg hC] at h
              by_cases hP : cb = Command.TYPE_PACKET
              · rw [if_pos hP] at h
                rcases h1 : readExact 6 t with ⟨r1, s3⟩
                cases r1 with
                | error err => rw [Parse.bind_apply_err h1] at h; simp at h
                | ok pbuf =>
                  rw [Parse.bind_apply_ok h1] at h
                  obtain ⟨hle6, -, hs3⟩ := readExact_ok h1
                  rcases ha : Address.read_from s3 with ⟨r2, s4⟩
                  cases r2 with
                  | error err => rw [Parse.bind_apply_err ha] at h; simp at h
                  | ok addr =>
                    rw [Parse.bind_apply_ok ha] at h
                    obtain ⟨hleA, hs4⟩ := Address.addr_read_ok ha
                    simp only [Parse.pure_apply, Prod.mk.injEq, Except.ok.injEq] at h
                    obtain ⟨hc, hs⟩ := h
                    subst hc
                    subst hs
                    subst hs4
                    subst hs3
                    constructor
                    · simp only [Command.serialized_len, List.length_cons]
                      have := List.length_drop 6 t
                      omega
                    · simp only [Command.serialized_len]
                      rw [List.drop_drop]
                      rw [show 2 + (6 + addr.serialized_len)
                          = (addr.serialized_len + 6) + 1 + 1 from by omega]
                      simp only [List.drop_succ_cons]
                      congr 1
                      omega
              · rw [if_neg hP] at h
                by_cases hD : cb = Command.TYPE_DISSOCIATE
                · rw [if_pos hD] at h
                  rcases h1 : readU32be t with ⟨r1, s3⟩
                  cases r1 with
                  | error err => rw [Parse.bind_apply_err h1] at h; simp at h
                  | ok assocId =>
                    rw [Parse.bind_apply_ok h1] at h
                    obtain ⟨hle, hs3⟩ := readU32be_ok h1
                    simp only [Parse.pure_apply, Prod.mk.injEq, Except.ok.injEq] at h
                    obtain ⟨hc, hs⟩ := h
                    subst hc
                    subst hs
                    subst hs3
                    constructor
                    · simp only [Command.serialized_len, List.length_cons]
                      omega
                    · simp only [Command.serialized_len]
                      rw [show (2 + 4 : Nat) = 4 + 1 + 1 from by omega]
                      simp only [List.drop_succ_cons]
                · rw [if_neg hD] at h
                  by_cases hH : cb = Command.TYPE_HEARTBEAT
                  · rw [if_pos hH] at h
                    simp only [Parse.pure_apply, Prod.mk.injEq, Except.ok.injEq] at h
                    obtain ⟨hc, hs⟩ := h
                    subst hc
                    subst hs
                    refine ⟨by simp [Command.serialized_len], rfl⟩
                  · rw [if_neg hH] at h
                    simp [Parse.fail] at h
      · rw [if_pos hv] at h
        simp [Parse.fail] at h

end Tuic

namespace Tuic

/-! ## Version mismatch -/

/-- After a complete two-byte header whose version byte is wrong, the decoder
stops with `UnsupportedVersion` carrying that byte, whatever the rest is. -/
theorem read_from_version_mismatch (e : Endianness) (v cb : Nat) (t : List Nat)
    (hv : v ≠ TUIC_PROTOCOL_VERSION) :
    Command.read_from e (v :: cb :: t) =
      (Except.error (Error.unsupportedVersion v), t) := by
  unfold Command.read_from
  rw [Parse.bind_apply_ok (readExact_two v cb t)]
  simp only [show ([v, cb].getD 0 0) = v from rfl, show ([v, cb].getD 1 0) = cb from rfl]
  rw [if_pos hv]
  rfl

/-! ## The claims -/

/-- C1: for every `Command` value `c` (well-formed for the Rust types, on any
host byte order), decoding the bytes produced by `Command::write_to_buf`
yields `Ok(c)` with nothing left over, and the length of the encoded byte
sequence equals `c.serialized_len()`. -/
theorem c1_command_roundtrip (e : Endianness) (c : Command) (h : c.wf) :
    Command.read_from e (c.write_to_buf []) = (Except.ok c, []) ∧
      (c.write_to_buf []).length = c.serialized_len := by
  constructor
  · have hr := Command.cmd_read_write e c [] h
    simpa using hr
  · exact Command.cmd_length_write c h

/-- Witness for C1 at a concrete `Packet` command on a little-endian host. -/
theorem c1_command_roundtrip_witness :
    Command.wf (Command.packet 70000 300 (Address.socketAddressV4 [127, 0, 0, 1] 8080)) ∧
    (Command.read_from Endianness.little
        ((Command.packet 70000 300 (Address.socketAddressV4 [127, 0, 0, 1] 8080)).write_to_buf [])
      = (Except.ok (Command.packet 70000 300 (Address.socketAddressV4 [127, 0, 0, 1] 8080)), []) ∧
    ((Command.packet 70000 300 (Address.socketAddressV4 [127, 0, 0, 1] 8080)).write_to_buf
        []).length
      = (Command.packet 70000 300 (Address.socketAddressV4 [127, 0, 0, 1] 8080)).serialized_len) :=
  ⟨by decide, c1_command_roundtrip Endianness.little _ (by decide)⟩

/-- C2 counterexample: the one-byte stream `[0x06]` has a first byte that
differs from `TUIC_PROTOCOL_VERSION`, yet `Command::read_from` fails with an
I/O error (the two-byte header read hits end of stream before the version
check runs), not with `UnsupportedVersion(6)`. -/
theorem c2_counterexample :
    (6 : Nat) ≠ TUIC_PROTOCOL_VERSION ∧
    Command.read_from Endianness.big [6] = (Except.error Error.ioError, [6]) ∧
    (Command.read_from Endianness.big [6]).1 ≠
      Except.error (Error.unsupportedVersion 6) :=
  ⟨by decide, rfl, by
    intro hc
    rw [show (Command.read_from Endianness.big [6]).1 = Except.error Error.ioError from rfl] at hc
    simp at hc⟩

/-- C2 (amended): for every input byte stream holding at least the two
header bytes and whose first byte differs from `TUIC_PROTOCOL_VERSION`,
`Command::read_from` returns `UnsupportedVersion(v)` where `v` is that
first byte. -/
theorem c2_unsupported_version (e : Endianness) (s : List Nat) (hlen : 2 ≤ s.length)
    (hv : s.getD 0 0 ≠ TUIC_PROTOCOL_VERSION) :
    (Command.read_from e s).1 = Except.error (Error.unsupportedVersion (s.getD 0 0)) := by
  match s with
  | [] => simp at hlen
  | [v] => simp at hlen
  | v :: cb :: t =>
    rw [read_from_version_mismatch e v cb t hv]
    rfl

/-- Witness for the amended C2 on the stream `[0x06, 0xff, 0x09]`. -/
theorem c2_unsupported_version_witness :
    2 ≤ ([6, 255, 9] : List Nat).length ∧
    (6 : Nat) ≠ TUIC_PROTOCOL_VERSION ∧
    (Command.read_from Endianness.big [6, 255, 9]).1 =
      Except.error (Error.unsupportedVersion 6) :=
  ⟨by decide, by decide,
    c2_unsupported_version Endianness.big [6, 255, 9] (by decide) (by decide)⟩

/-- C3: for every input stream whose version byte equals
`TUIC_PROTOCOL_VERSION` and whose type byte `t` is none of
`{0xff, 0x00, 0x01, 0x02, 0x03, 0x04}`, `Command::read_from` returns
`UnsupportedCommand(t)` with `t` the type byte read from the input. -/
theorem c3_unsupported_command (e : Endianness) (tb : Nat) (rest : List Nat)
    (h : tb ∉ ([0xff, 0x00, 0x01, 0x02, 0x03, 0x04] : List Nat)) :
    Command.read_from e (TUIC_PROTOCOL_VERSION :: tb :: rest) =
      (Except.error (Error.unsupportedCommand tb), rest) := by
  simp only [List.mem_cons, List.not_mem_nil, or_false, not_or] at h
  obtain ⟨h1, h2, h3, h4, h5, h6⟩ := h
  simp [Command.read_from, Parse.bind_apply, Parse.fail, readExact_two,
    TUIC_PROTOCOL_VERSION, Command.TYPE_RESPONSE, Command.TYPE_AUTHENTICATE,
    Command.TYPE_CONNECT, Command.TYPE_PACKET, Command.TYPE_DISSOCIATE,
    Command.TYPE_HEARTBEAT, h1, h2, h3, h4, h5, h6]

/-- Witness for C3 with the unknown type byte `0x09`. -/
theorem c3_unsupported_command_witness :
    (9 : Nat) ∉ ([0xff, 0x00, 0x01, 0x02, 0x03, 0x04] : List Nat) ∧
    Command.read_from Endianness.little (TUIC_PROTOCOL_VERSION :: 9 :: [1, 2]) =
      (Except.error (Error.unsupportedCommand 9), [1, 2]) :=
  ⟨by decide, c3_unsupported_command Endianness.little 9 [1, 2] (by decide)⟩

/-- C5: when the header is valid and the type byte is `0xff` (`Response`),
`Command::read_from` reads exactly one further byte `b` and returns
`Ok(Response(true))` for `b = 0x00`, `Ok(Response(false))` for `b = 0xff`,
and `InvalidResponse(b)` for every other value, leaving the rest of the
stream unread. -/
theorem c5_response_parse (e : Endianness) (b : Nat) (rest : List Nat) :
    Command.read_from e (TUIC_PROTOCOL_VERSION :: Command.TYPE_RESPONSE :: b :: rest) =
      (if b = Command.RESPONSE_SUCCEEDED then (Except.ok (Command.response true), rest)
       else if b = Command.RESPONSE_FAILED then (Except.ok (Command.response false), rest)
       else (Except.error (Error.invalidResponse b), rest)) := by
  by_cases h0 : b = Command.RESPONSE_SUCCEEDED
  · subst h0
    simp [Command.read_from, Parse.bind_apply, Parse.pure_apply, readExact_two, readU8_cons,
      TUIC_PROTOCOL_VERSION, Command.TYPE_RESPONSE, Command.RESPONSE_SUCCEEDED,
      Command.RESPONSE_FAILED]
  · by_cases hf : b = Command.RESPONSE_FAILED
    · subst hf
      simp [Command.read_from, Parse.bind_apply, Parse.pure_apply, readExact_two, readU8_cons,
        TUIC_PROTOCOL_VERSION, Command.TYPE_RESPONSE, Command.RESPONSE_SUCCEEDED,
        Command.RESPONSE_FAILED]
    · simp only [Command.RESPONSE_SUCCEEDED] at h0
      simp only [Command.RESPONSE_FAILED] at hf
      simp [Command.read_from, Parse.bind_apply, Parse.pure_apply, Parse.fail, readExact_two,
        readU8_cons, TUIC_PROTOCOL_VERSION, Command.TYPE_RESPONSE, Command.RESPONSE_SUCCEEDED,
        Command.RESPONSE_FAILED, h0, hf]

end Tuic

namespace Tuic

/-- C4: decoding a `Packet` body assembles its integers big-endian on every
host byte order: from body bytes `b0..b5` the decoder yields
`assoc_id = b0·2^24 + b1·2^16 + b2·2^8 + b3` and `len = b4·2^8 + b5`, and
these are exactly the values whose `put_u32`/`put_u16` encodings are those
bytes, so decoding matches what `write_to_buf` emits. -/
theorem c4_packet_big_endian (e : Endianness) (b0 b1 b2 b3 b4 b5 : Nat)
    (h0 : b0 < 256) (h1 : b1 < 256) (h2 : b2 < 256) (h3 : b3 < 256)
    (h4 : b4 < 256) (h5 : b5 < 256) (addr : Address) (ha : addr.wf) (rest : List Nat) :
    Command.read_from e (TUIC_PROTOCOL_VERSION :: Command.TYPE_PACKET ::
        b0 :: b1 :: b2 :: b3 :: b4 :: b5 :: (addr.write_to_buf [] ++ rest)) =
      (Except.ok (Command.packet (b0 * 2 ^ 24 + b1 * 2 ^ 16 + b2 * 2 ^ 8 + b3)
        (b4 * 2 ^ 8 + b5) addr), rest) ∧
    putU32 (b0 * 2 ^ 24 + b1 * 2 ^ 16 + b2 * 2 ^ 8 + b3) = [b0, b1, b2, b3] ∧
    putU16 (b4 * 2 ^ 8 + b5) = [b4, b5] := by
  have hA : b0 * 2 ^ 24 + b1 * 2 ^ 16 + b2 * 2 ^ 8 + b3
      = ((b0 * 256 + b1) * 256 + b2) * 256 + b3 := by ring
  have hL : b4 * 2 ^ 8 + b5 = b4 * 256 + b5 := by ring
  have key32 : u32FromBe e (rawLoadU32 e b0 b1 b2 b3)
      = ((b0 * 256 + b1) * 256 + b2) * 256 + b3 := u32FromBe_rawLoadU32 e h0 h1 h2 h3
  have key16 : u16FromBe e (rawLoadU16 e b4 b5) = b4 * 256 + b5 := u16FromBe_rawLoadU16 e h4 h5
  refine ⟨?_, ?_, ?_⟩
  · rw [hA, hL]
    simp [Command.read_from, Parse.bind_apply, Parse.pure_apply, readExact_two, readExact_six,
      TUIC_PROTOCOL_VERSION, Command.TYPE_RESPONSE, Command.TYPE_AUTHENTICATE,
      Command.TYPE_CONNECT, Command.TYPE_PACKET, key32, key16,
      Address.addr_read_write addr rest ha]
  · rw [hA]
    simp only [putU32, List.cons.injEq, and_true]
    refine ⟨by omega, by omega, by omega, by omega⟩
  · rw [hL]
    simp only [putU16, List.cons.injEq, and_true]
    exact ⟨by omega, by omega⟩

/-- Witness for C4 with concrete body bytes and address on a little-endian
host. -/
theorem c4_packet_big_endian_witness :
    ((0x12 : Nat) < 256 ∧ (0x34 : Nat) < 256 ∧ (0x56 : Nat) < 256 ∧ (0x78 : Nat) < 256 ∧
      (0x01 : Nat) < 256 ∧ (0x02 : Nat) < 256 ∧
      Address.wf (Address.socketAddressV4 [8, 8, 8, 8] 53)) ∧
    (Command.read_from Endianness.little (TUIC_PROTOCOL_VERSION :: Command.TYPE_PACKET ::
        0x12 :: 0x34 :: 0x56 :: 0x78 :: 0x01 :: 0x02 ::
        ((Address.socketAddressV4 [8, 8, 8, 8] 53).write_to_buf [] ++ [7, 7])) =
      (Except.ok (Command.packet (0x12 * 2 ^ 24 + 0x34 * 2 ^ 16 + 0x56 * 2 ^ 8 + 0x78)
        (0x01 * 2 ^ 8 + 0x02) (Address.socketAddressV4 [8, 8, 8, 8] 53)), [7, 7]) ∧
    putU32 (0x12 * 2 ^ 24 + 0x34 * 2 ^ 16 + 0x56 * 2 ^ 8 + 0x78) = [0x12, 0x34, 0x56, 0x78] ∧
    putU16 (0x01 * 2 ^ 8 + 0x02) = [0x01, 0x02]) :=
  ⟨⟨by decide, by decide, by decide, by decide, by decide, by decide, by decide⟩,
    c4_packet_big_endian Endianness.little 0x12 0x34 0x56 0x78 0x01 0x02
      (by decide) (by decide) (by decide) (by decide) (by decide) (by decide)
      (Address.socketAddressV4 [8, 8, 8, 8] 53) (by decide) [7, 7]⟩

/-- C6: every encoding produced by `Command::write_to_buf` begins with the
byte `TUIC_PROTOCOL_VERSION` followed by the type byte determined by the
variant, then the body. -/
theorem c6_encoding_header (c : Command) :
    ∃ body, c.write_to_buf [] = TUIC_PROTOCOL_VERSION :: c.typeByte :: body := by
  cases c with
  | response isSucceeded => cases isSucceeded <;> exact ⟨_, rfl⟩
  | authenticate digest => exact ⟨_, rfl⟩
  | connect addr => cases addr <;> exact ⟨_, rfl⟩
  | packet assocId len addr => cases addr <;> exact ⟨_, rfl⟩
  | dissociate assocId => exact ⟨_, rfl⟩
  | heartbeat => exact ⟨_, rfl⟩

/-- C7: `Command::write_to` is buffering: it issues exactly one write call,
whose bytes are exactly what `write_to_buf` produces on an empty buffer, and
whose size is `serialized_len()`. -/
theorem c7_write_to_buffered (c : Command) (h : c.wf) :
    c.write_to = [c.write_to_buf []] ∧
    c.write_to.length = 1 ∧
    ∀ chunk ∈ c.write_to, chunk.length = c.serialized_len := by
  refine ⟨rfl, rfl, ?_⟩
  intro chunk hc
  have hchunk : chunk = c.write_to_buf [] := by
    simpa [Command.write_to] using hc
  rw [hchunk]
  exact Command.cmd_length_write c h

/-- Witness for C7 at a concrete command. -/
theorem c7_write_to_buffered_witness :
    Command.wf (Command.dissociate 7) ∧
    ((Command.dissociate 7).write_to = [(Command.dissociate 7).write_to_buf []] ∧
    (Command.dissociate 7).write_to.length = 1 ∧
    ∀ chunk ∈ (Command.dissociate 7).write_to,
      chunk.length = (Command.dissociate 7).serialized_len) :=
  ⟨by decide, c7_write_to_buffered (Command.dissociate 7) (by decide)⟩

/-- C8: `Server::init` selects its bind target from `enable_ipv6`: with it
set, it creates an IPv6 socket, clears the `only_v6` option and binds the
IPv6 unspecified address on the given port; with it unset, it creates an
IPv4 socket and binds the IPv4 unspecified address on the given port. -/
theorem c8_server_bind_address (port : Nat) :
    Server.init_socket_ops true port =
      [SockOp.create Domain.ipv6, SockOp.setOnlyV6 false,
        SockOp.bindAddr ⟨Ipv6Addr.UNSPECIFIED, port⟩] ∧
    Server.init_socket_ops false port =
      [SockOp.create Domain.ipv4, SockOp.bindAddr ⟨Ipv4Addr.UNSPECIFIED, port⟩] :=
  ⟨rfl, rfl⟩

/-- C9: the version check precedes command dispatch — on any input whose
version byte is wrong, `read_from` consumes exactly the two header bytes
and returns `UnsupportedVersion`, whatever the type byte and the rest of
the stream; in particular it never returns `UnsupportedCommand`,
`InvalidResponse` or any `Ok` value there. -/
theorem c9_version_check_precedence (e : Endianness) (v tb : Nat) (rest : List Nat)
    (hv : v ≠ TUIC_PROTOCOL_VERSION) :
    Command.read_from e (v :: tb :: rest) =
      (Except.error (Error.unsupportedVersion v), rest) :=
  read_from_version_mismatch e v tb rest hv

/-- Witness for C9 on a stream with a valid-looking `Response` body after a
wrong version byte. -/
theorem c9_version_check_precedence_witness :
    (7 : Nat) ≠ TUIC_PROTOCOL_VERSION ∧
    Command.read_from Endianness.big (7 :: 0xff :: [0x00, 0x01]) =
      (Except.error (Error.unsupportedVersion 7), [0x00, 0x01]) :=
  ⟨by decide, c9_version_check_precedence Endianness.big 7 0xff [0x00, 0x01] (by decide)⟩

/-- C10: whenever `Command::read_from` returns `Ok(c)` it has consumed
exactly `c.serialized_len()` bytes of the stream: the unconsumed tail is the
stream with precisely that prefix dropped. -/
theorem c10_ok_consumes_serialized_len (e : Endianness) (s : List Nat) (c : Command)
    (s2 : List Nat) (h : Command.read_from e s = (Except.ok c, s2)) :
    c.serialized_len ≤ s.length ∧ s2 = s.drop c.serialized_len :=
  Command.cmd_read_ok e h

/-- Witness for C10 on a `Heartbeat` followed by two payload bytes. -/
theorem c10_ok_consumes_serialized_len_witness :
    Command.read_from Endianness.big [5, 4, 9, 9] = (Except.ok Command.heartbeat, [9, 9]) ∧
    (Command.heartbeat.serialized_len ≤ ([5, 4, 9, 9] : List Nat).length ∧
      [9, 9] = ([5, 4, 9, 9] : List Nat).drop Command.heartbeat.serialized_len) :=
  ⟨rfl, c10_ok_consumes_serialized_len Endianness.big [5, 4, 9, 9] Command.heartbeat [9, 9] rfl⟩

end Tuic
